import Mathlib

/-!
Verification of the continuous audio recorder's capture/segment/retention
pipeline against its natural-language specification.

The Python sources are shallowly embedded:
* naive `datetime.datetime` values become the `DT` structure (civil calendar
  fields plus time-of-day fields); `timedelta(days = n)` arithmetic becomes
  `nextDay`/`prevDay` iteration; comparison of naive datetimes becomes
  comparison of the absolute-microsecond `DT.key`;
* directory trees become the `FSDir` inductive; directory names are kept as
  `List Char` (Python compares and indexes strings by code point, which is
  exactly what the embedding does);
* 16-bit PCM arithmetic (`numpy` with `dtype=int16`) becomes integer
  arithmetic with explicit wrap-around modulo 2^16 and truncated division;
* disk-space arithmetic (Python floats over exactly representable byte
  counts and small ratios) becomes `ℚ` arithmetic.
-/

set_option maxRecDepth 4000

namespace Recorder

/-! ### Civil calendar (proleptic Gregorian, as Python's `datetime.date`) -/

/-- Gregorian leap-year test, as used by Python's `datetime'. -/
def isLeap (y : ℕ) : Bool :=
  (y % 4 == 0 && y % 100 != 0) || (y % 400 == 0)

/-- 1 for a leap year, 0 otherwise. -/
def leapBit (y : ℕ) : ℕ := if isLeap y then 1 else 0

/-- Days in a month, parameterised by the February adjustment. -/
def daysInMonthAux (L : ℕ) : ℕ → ℕ
  | 1 => 31 | 2 => 28 + L | 3 => 31 | 4 => 30 | 5 => 31 | 6 => 30
  | 7 => 31 | 8 => 31 | 9 => 30 | 10 => 31 | 11 => 30 | 12 => 31
  | _ => 0

/-- Days in month `m` of year `y`. -/
def daysInMonth (y m : ℕ) : ℕ := daysInMonthAux (leapBit y) m

/-- Days of year `y` that precede month `m`, parameterised by the February
adjustment. -/
def daysBeforeMonthAux (L : ℕ) : ℕ → ℕ
  | 1 => 0 | 2 => 31 | 3 => 59 + L | 4 => 90 + L | 5 => 120 + L | 6 => 151 + L
  | 7 => 181 + L | 8 => 212 + L | 9 => 243 + L | 10 => 273 + L
  | 11 => 304 + L | 12 => 334 + L
  | _ => 0

/-- Days of year `y` that precede month `m`. -/
def daysBeforeMonth (y m : ℕ) : ℕ := daysBeforeMonthAux (leapBit y) m

/-- Number of leap years in `1..n`. -/
def leapsBefore (n : ℕ) : ℕ := n / 4 - n / 100 + n / 400

/-- Proleptic-Gregorian ordinal of the date `(y, m, d)`: the number of days
since 0001-01-01 (which has ordinal 0).  Mirrors the ordinal underlying
Python's `datetime.date`. -/
def ordDate (y m d : ℕ) : ℤ :=
  365 * ((y : ℤ) - 1) + (leapsBefore (y - 1) : ℤ) + (daysBeforeMonth y m : ℤ)
    + (d : ℤ) - 1

/-- Validity of a civil date, exactly the constraint enforced by Python's
`datetime.date(y, m, d)` constructor (`MINYEAR = 1`, `MAXYEAR = 9999`). -/
def dateValid (y m d : ℕ) : Prop :=
  1 ≤ y ∧ y ≤ 9999 ∧ 1 ≤ m ∧ m ≤ 12 ∧ 1 ≤ d ∧ d ≤ daysInMonth y m

instance (y m d : ℕ) : Decidable (dateValid y m d) := by
  unfold dateValid; infer_instance

/-- Successor date (the date one day later). -/
def nextDay (y m d : ℕ) : ℕ × ℕ × ℕ :=
  if d < daysInMonth y m then (y, m, d + 1)
  else if m < 12 then (y, m + 1, 1)
  else (y + 1, 1, 1)

/-- Predecessor date (the date one day earlier). -/
def prevDay (y m d : ℕ) : ℕ × ℕ × ℕ :=
  if 1 < d then (y, m, d - 1)
  else if 1 < m then (y, m - 1, daysInMonth y (m - 1))
  else (y - 1, 12, 31)

/-! ### Naive datetimes -/

/-- A naive `datetime.datetime` value: civil date plus time of day. -/
@[ext]
structure DT where
  year : ℕ
  month : ℕ
  day : ℕ
  hour : ℕ
  minute : ℕ
  second : ℕ
  microsecond : ℕ
  deriving Repr, DecidableEq

/-- Validity of a datetime (the invariant Python's constructor enforces). -/
def DT.Valid (t : DT) : Prop :=
  dateValid t.year t.month t.day ∧ t.hour < 24 ∧ t.minute < 60 ∧
    t.second < 60 ∧ t.microsecond < 1000000

instance (t : DT) : Decidable t.Valid := by
  unfold DT.Valid; infer_instance

/-- Time of day in microseconds. -/
def DT.tod (t : DT) : ℕ :=
  ((t.hour * 60 + t.minute) * 60 + t.second) * 1000000 + t.microsecond

/-- Absolute time in microseconds since 0001-01-01 00:00:00.  For valid
datetimes, comparing keys is Python's (field-lexicographic) comparison of
naive datetimes. -/
def DT.key (t : DT) : ℤ :=
  ordDate t.year t.month t.day * 86400000000 + (t.tod : ℤ)

/-- `a < b` on datetimes (chronological; equals Python's order on valid
values). -/
def DT.lt (a b : DT) : Prop := a.key < b.key

/-- `a ≤ b` on datetimes. -/
def DT.le (a b : DT) : Prop := a.key ≤ b.key

instance (a b : DT) : Decidable (DT.lt a b) := by unfold DT.lt; infer_instance

instance (a b : DT) : Decidable (DT.le a b) := by unfold DT.le; infer_instance

/-- `t + datetime.timedelta(days = 1)`: advance the date, keep the time. -/
def DT.addOneDay (t : DT) : DT :=
  { t with year := (nextDay t.year t.month t.day).1,
           month := (nextDay t.year t.month t.day).2.1,
           day := (nextDay t.year t.month t.day).2.2 }

/-- Subtract one day from the date part, keeping the time of day. -/
def DT.subOneDay (t : DT) : DT :=
  { t with year := (prevDay t.year t.month t.day).1,
           month := (prevDay t.year t.month t.day).2.1,
           day := (prevDay t.year t.month t.day).2.2 }

/-- Subtract `n` days from the date part, keeping the time of day. -/
def DT.subDaysNat (t : DT) : ℕ → DT
  | 0 => t
  | n + 1 => (DT.subDaysNat t n).subOneDay

/-- Add `n` days to the date part, keeping the time of day. -/
def DT.addDaysNat (t : DT) : ℕ → DT
  | 0 => t
  | n + 1 => (DT.addDaysNat t n).addOneDay

/-- `t - datetime.timedelta(days = r)` for a possibly nonpositive `r`
(Python's `timedelta` accepts negative day counts). -/
def DT.subDays (t : DT) (r : ℤ) : DT :=
  if 0 ≤ r then t.subDaysNat r.toNat else t.addDaysNat (-r).toNat

/-! ### Calendar arithmetic lemmas -/

theorem daysBeforeMonthAux_step :
    ∀ L < 2, ∀ m < 12, 1 ≤ m →
      daysBeforeMonthAux L m + daysInMonthAux L m = daysBeforeMonthAux L (m + 1) := by
  decide

theorem daysBeforeMonthAux_last :
    ∀ L < 2, daysBeforeMonthAux L 12 + daysInMonthAux L 12 = 365 + L := by
  decide

theorem daysInMonthAux_pos : ∀ L < 2, ∀ m < 13, 1 ≤ m → 1 ≤ daysInMonthAux L m := by
  decide

theorem daysInMonthAux_le : ∀ L < 2, ∀ m < 13, daysInMonthAux L m ≤ 31 := by
  decide

theorem daysBeforeMonthAux_le : ∀ L < 2, ∀ m < 13, daysBeforeMonthAux L m ≤ 334 + L := by
  decide

theorem leapBit_lt_two (y : ℕ) : leapBit y < 2 := by
  unfold leapBit; split <;> omega

theorem daysInMonthAux_twelve (L : ℕ) : daysInMonthAux L 12 = 31 := rfl

theorem daysBeforeMonthAux_twelve (L : ℕ) : daysBeforeMonthAux L 12 = 334 + L := rfl

theorem daysBeforeMonthAux_one (L : ℕ) : daysBeforeMonthAux L 1 = 0 := rfl

theorem leapsBefore_step (y : ℕ) (hy : 1 ≤ y) :
    leapsBefore y = leapsBefore (y - 1) + leapBit y := by
  unfold leapsBefore leapBit isLeap
  rcases Nat.exists_eq_add_of_le hy with ⟨z, rfl⟩
  simp only [Nat.add_sub_cancel_left, Bool.or_eq_true, Bool.and_eq_true, beq_iff_eq,
    bne_iff_ne, ne_eq, decide_eq_true_eq]
  split <;> omega

theorem nextDay_valid_ord {y m d : ℕ} (hv : dateValid y m d) (hy : y ≤ 9998) :
    dateValid (nextDay y m d).1 (nextDay y m d).2.1 (nextDay y m d).2.2 ∧
      ordDate (nextDay y m d).1 (nextDay y m d).2.1 (nextDay y m d).2.2 =
        ordDate y m d + 1 := by
  obtain ⟨h1, h2, h3, h4, h5, h6⟩ := hv
  have hL := leapBit_lt_two y
  unfold nextDay
  by_cases hd : d < daysInMonth y m
  · simp only [if_pos hd]
    refine ⟨⟨h1, h2, h3, h4, by omega, by omega⟩, ?_⟩
    unfold ordDate; push_cast; ring
  · simp only [if_neg hd]
    by_cases hm : m < 12
    · simp only [if_pos hm]
      have hstep := daysBeforeMonthAux_step (leapBit y) hL m (by omega) h3
      have hpos := daysInMonthAux_pos (leapBit y) hL (m + 1) (by omega) (by omega)
      refine ⟨⟨h1, h2, by omega, by omega, by omega, by
        unfold daysInMonth; omega⟩, ?_⟩
      unfold ordDate daysBeforeMonth
      have hdm : d = daysInMonthAux (leapBit y) m := by
        unfold daysInMonth at hd h6; omega
      push_cast
      omega
    · simp only [if_neg hm]
      have hm12 : m = 12 := by omega
      subst hm12
      have hdm : d = 31 := by
        unfold daysInMonth at hd h6; rw [daysInMonthAux_twelve] at hd h6; omega
      subst hdm
      have hdimnext : 1 ≤ daysInMonth (y + 1) 1 := by
        unfold daysInMonth
        exact daysInMonthAux_pos (leapBit (y + 1)) (leapBit_lt_two _) 1 (by omega) (by omega)
      refine ⟨⟨by omega, by omega, by omega, by omega, by omega, hdimnext⟩, ?_⟩
      have hstepY : leapsBefore y = leapsBefore (y - 1) + leapBit y := by
        exact leapsBefore_step y (by omega)
      unfold ordDate daysBeforeMonth
      rw [daysBeforeMonthAux_twelve, daysBeforeMonthAux_one]
      have ey : y + 1 - 1 = y := by omega
      rw [ey]
      push_cast
      omega

theorem prevDay_valid_ord {y m d : ℕ} (hv : dateValid y m d)
    (ho : 1 ≤ ordDate y m d) :
    dateValid (prevDay y m d).1 (prevDay y m d).2.1 (prevDay y m d).2.2 ∧
      ordDate (prevDay y m d).1 (prevDay y m d).2.1 (prevDay y m d).2.2 =
        ordDate y m d - 1 := by
  obtain ⟨h1, h2, h3, h4, h5, h6⟩ := hv
  have hL := leapBit_lt_two y
  unfold prevDay
  by_cases hd : 1 < d
  · simp only [if_pos hd]
    refine ⟨⟨h1, h2, h3, h4, by omega, by omega⟩, ?_⟩
    unfold ordDate; omega
  · simp only [if_neg hd]
    have hd1 : d = 1 := by omega
    subst hd1
    by_cases hm : 1 < m
    · simp only [if_pos hm]
      have hstep := daysBeforeMonthAux_step (leapBit y) hL (m - 1) (by omega) (by omega)
      have hpos := daysInMonthAux_pos (leapBit y) hL (m - 1) (by omega) (by omega)
      have hm1 : m - 1 + 1 = m := by omega
      rw [hm1] at hstep
      have hdim1 : 1 ≤ daysInMonth y (m - 1) := by unfold daysInMonth; omega
      refine ⟨⟨h1, h2, by omega, by omega, hdim1, le_refl _⟩, ?_⟩
      simp only [ordDate, daysBeforeMonth, daysInMonth]
      omega
    · simp only [if_neg hm]
      have hm1 : m = 1 := by omega
      subst hm1
      have hy2 : 2 ≤ y := by
        by_contra hc
        have hy1 : y = 1 := by omega
        subst hy1
        unfold ordDate daysBeforeMonth daysBeforeMonthAux leapsBefore at ho
        norm_num at ho
      have hstepY : leapsBefore (y - 1) = leapsBefore (y - 1 - 1) + leapBit (y - 1) :=
        leapsBefore_step (y - 1) (by omega)
      have hLp := leapBit_lt_two (y - 1)
      refine ⟨⟨by omega, by omega, by omega, by omega, by omega, by
        unfold daysInMonth; rw [daysInMonthAux_twelve]⟩, ?_⟩
      simp only [ordDate, daysBeforeMonth]
      rw [daysBeforeMonthAux_twelve, daysBeforeMonthAux_one]
      omega

/-- `ordDate` of any valid date in year `y ≥ 2` is at least 365. -/
theorem ordDate_ge_365 {y m d : ℕ} (hv : dateValid y m d) (hy : 2 ≤ y) :
    (365 : ℤ) ≤ ordDate y m d := by
  obtain ⟨h1, h2, h3, h4, h5, h6⟩ := hv
  unfold ordDate
  have : (365 : ℤ) * ((y : ℤ) - 1) ≥ 365 := by
    have : (2 : ℤ) ≤ (y : ℤ) := by exact_mod_cast hy
    nlinarith
  have hdb : 0 ≤ (daysBeforeMonth y m : ℤ) := by positivity
  have hlb : 0 ≤ (leapsBefore (y - 1) : ℤ) := by positivity
  have hd1 : (1 : ℤ) ≤ (d : ℤ) := by exact_mod_cast h5
  omega

/-- Specification of `DT.subDaysNat`: it decrements the date ordinal and keeps
the time fields, staying within valid dates. -/
theorem DT.subDaysNat_spec (t : DT) (k : ℕ)
    (hv : dateValid t.year t.month t.day)
    (hk : (k : ℤ) ≤ ordDate t.year t.month t.day) :
    dateValid (t.subDaysNat k).year (t.subDaysNat k).month (t.subDaysNat k).day ∧
      ordDate (t.subDaysNat k).year (t.subDaysNat k).month (t.subDaysNat k).day =
        ordDate t.year t.month t.day - k ∧
      (t.subDaysNat k).hour = t.hour ∧ (t.subDaysNat k).minute = t.minute ∧
      (t.subDaysNat k).second = t.second ∧
      (t.subDaysNat k).microsecond = t.microsecond := by
  induction k with
  | zero => simp [DT.subDaysNat, hv]
  | succ n ih =>
    have hn : (n : ℤ) ≤ ordDate t.year t.month t.day := by push_cast at hk ⊢; omega
    obtain ⟨ihv, iho, ihh, ihm, ihs, ihu⟩ := ih hn
    have hp := prevDay_valid_ord ihv (by rw [iho]; push_cast at hk ⊢; omega)
    unfold DT.subDaysNat DT.subOneDay
    refine ⟨hp.1, ?_, ihh, ihm, ihs, ihu⟩
    show ordDate (prevDay _ _ _).1 (prevDay _ _ _).2.1 (prevDay _ _ _).2.2 = _
    rw [hp.2, iho]; push_cast; ring

/-! ### `calculate_block_times` (src/utils/file_utils.py, lines 234-264) -/

/-- `calculate_block_times(current_time, recording_hours)`: start and end of
the recording block containing `t`.  Transcribed from the source: the start
is `t` with the hour replaced by `(hour / H) * H` and minutes, seconds and
microseconds zeroed; the end replaces the hour by `(hour / H + 1) * H`,
rolling to the next calendar day when that reaches 24. -/
def calculate_block_times (t : DT) (H : ℕ) : DT × DT :=
  let blockNumber := t.hour / H
  let blockStartHour := blockNumber * H
  let blockStart : DT :=
    { t with hour := blockStartHour, minute := 0, second := 0, microsecond := 0 }
  let blockEndHour := (blockNumber + 1) * H
  let blockEnd : DT :=
    if 24 ≤ blockEndHour then
      let n := t.addOneDay
      { n with hour := blockEndHour % 24, minute := 0, second := 0, microsecond := 0 }
    else
      { t with hour := blockEndHour, minute := 0, second := 0, microsecond := 0 }
  (blockStart, blockEnd)

theorem key_withTime (t : DT) (a b c d : ℕ) :
    DT.key { t with hour := a, minute := b, second := c, microsecond := d } =
      ordDate t.year t.month t.day * 86400000000 +
        (((a * 60 + b) * 60 + c) * 1000000 + d) := rfl

theorem key_addOneDay_withTime (t : DT) (a b c d : ℕ) :
    DT.key { t.addOneDay with hour := a, minute := b, second := c, microsecond := d } =
      ordDate (nextDay t.year t.month t.day).1 (nextDay t.year t.month t.day).2.1
          (nextDay t.year t.month t.day).2.2 * 86400000000 +
        (((a * 60 + b) * 60 + c) * 1000000 + d) := rfl

theorem key_self (t : DT) :
    DT.key t = ordDate t.year t.month t.day * 86400000000 +
      (((t.hour * 60 + t.minute) * 60 + t.second) * 1000000 + t.microsecond) := rfl

/-- C4: for every admissible block duration `H ∈ {1,2,3,4,6,8,12,24}` and valid
current time `now`, `calculate_block_times` brackets `now` (start ≤ now < end),
the block is exactly `H` hours long, and the block start is aligned: its hour
is a multiple of `H` and its minutes, seconds and microseconds are zero. -/
theorem C4_calculate_block_times_correct (H : ℕ)
    (hH : H = 1 ∨ H = 2 ∨ H = 3 ∨ H = 4 ∨ H = 6 ∨ H = 8 ∨ H = 12 ∨ H = 24)
    (t : DT) (hv : t.Valid) (hy : t.year ≤ 9998) :
    (calculate_block_times t H).1.le t ∧ DT.lt t (calculate_block_times t H).2 ∧
      (calculate_block_times t H).2.key - (calculate_block_times t H).1.key =
        H * 3600000000 ∧
      (calculate_block_times t H).1.hour % H = 0 ∧
      (calculate_block_times t H).1.minute = 0 ∧
      (calculate_block_times t H).1.second = 0 ∧
      (calculate_block_times t H).1.microsecond = 0 := by
  obtain ⟨hvd, hh, hm, hs, hu⟩ := hv
  obtain ⟨hnv, hno⟩ := nextDay_valid_ord hvd hy
  have hay : t.addOneDay.year = (nextDay t.year t.month t.day).1 := rfl
  have ham : t.addOneDay.month = (nextDay t.year t.month t.day).2.1 := rfl
  have had : t.addOneDay.day = (nextDay t.year t.month t.day).2.2 := rfl
  unfold calculate_block_times
  simp only [DT.le, DT.lt]
  split
  · simp only [key_withTime, key_self, hay, ham, had, hno]
    rcases hH with rfl | rfl | rfl | rfl | rfl | rfl | rfl | rfl <;>
      refine ⟨by omega, by omega, by omega, by omega, by trivial, by trivial, by trivial⟩
  · simp only [key_withTime, key_self]
    rcases hH with rfl | rfl | rfl | rfl | rfl | rfl | rfl | rfl <;>
      refine ⟨by omega, by omega, by omega, by omega, by trivial, by trivial, by trivial⟩

/-! ### Strings as code-point lists

Python compares and indexes `str` values code point by code point; directory
and file names are embedded as `List Char` and compared lexicographically,
which is exactly Python's `<` on the ASCII names this program generates. -/

/-- The ASCII digit character for `n % 10`. -/
def digitChar (n : ℕ) : Char := Char.ofNat (48 + n % 10)

/-- ASCII digit test (`str.isdigit` on the ASCII names this program uses). -/
def isDigitChar (c : Char) : Bool := 48 ≤ c.toNat && c.toNat ≤ 57

/-- `str.isdigit`: nonempty and all digits. -/
def isDigits (l : List Char) : Bool := !l.isEmpty && l.all isDigitChar

/-- `int(...)` on an all-digit string. -/
def parseNatChars (l : List Char) : ℕ :=
  l.foldl (fun a c => a * 10 + (c.toNat - 48)) 0

/-- `strftime("%m")`-style two-digit zero-padded rendering. -/
def pad2 (n : ℕ) : List Char := [digitChar (n / 10 % 10), digitChar (n % 10)]

/-- `strftime("%Y")`-style four-digit zero-padded rendering (years of this
program are always in `1..9999`). -/
def pad4 (n : ℕ) : List Char :=
  [digitChar (n / 1000 % 10), digitChar (n / 100 % 10),
   digitChar (n / 10 % 10), digitChar (n % 10)]

/-- Python's lexicographic `<` on strings, code point by code point. -/
def listLt : List Char → List Char → Bool
  | [], [] => false
  | [], _ :: _ => true
  | _ :: _, [] => false
  | a :: as, b :: bs =>
    if a.toNat < b.toNat then true
    else if b.toNat < a.toNat then false
    else listLt as bs

/-- `strftime("%Y-%m-%d")`. -/
def isoDate (y m d : ℕ) : List Char :=
  pad4 y ++ '-' :: (pad2 m ++ '-' :: pad2 d)

theorem toNat_digitChar : ∀ n < 10, (digitChar n).toNat = 48 + n := by decide

theorem isDigitChar_digitChar : ∀ n < 10, isDigitChar (digitChar n) = true := by decide

theorem parseNatChars_pad2 {n : ℕ} (h : n < 100) : parseNatChars (pad2 n) = n := by
  unfold parseNatChars pad2
  simp only [List.foldl]
  rw [toNat_digitChar (n / 10 % 10) (by omega), toNat_digitChar (n % 10) (by omega)]
  omega

theorem parseNatChars_pad4 {n : ℕ} (h : n < 10000) : parseNatChars (pad4 n) = n := by
  unfold parseNatChars pad4
  simp only [List.foldl]
  rw [toNat_digitChar (n / 1000 % 10) (by omega), toNat_digitChar (n / 100 % 10) (by omega),
    toNat_digitChar (n / 10 % 10) (by omega), toNat_digitChar (n % 10) (by omega)]
  omega

theorem isDigits_pad2 (n : ℕ) : isDigits (pad2 n) = true := by
  unfold isDigits pad2
  simp [isDigitChar_digitChar (n / 10 % 10) (by omega),
    isDigitChar_digitChar (n % 10) (by omega)]

theorem isDigits_pad4 (n : ℕ) : isDigits (pad4 n) = true := by
  unfold isDigits pad4
  simp [isDigitChar_digitChar (n / 1000 % 10) (by omega),
    isDigitChar_digitChar (n / 100 % 10) (by omega),
    isDigitChar_digitChar (n / 10 % 10) (by omega),
    isDigitChar_digitChar (n % 10) (by omega)]

theorem listLt_cons (x y : Char) (xs ys : List Char) :
    listLt (x :: xs) (y :: ys) =
      if x.toNat < y.toNat then true
      else if y.toNat < x.toNat then false
      else listLt xs ys := rfl

theorem listLt_cons_same (c : Char) (s t : List Char) :
    listLt (c :: s) (c :: t) = listLt s t := by
  rw [listLt_cons, if_neg (Nat.lt_irrefl _), if_neg (Nat.lt_irrefl _)]

theorem listLt_pad4_append {a b : ℕ} (ha : a < 10000) (hb : b < 10000)
    (s t : List Char) :
    listLt (pad4 a ++ s) (pad4 b ++ t) =
      if a < b then true else if b < a then false else listLt s t := by
  unfold pad4
  simp only [List.cons_append, listLt_cons,
    toNat_digitChar (a / 1000 % 10) (by omega), toNat_digitChar (b / 1000 % 10) (by omega),
    toNat_digitChar (a / 100 % 10) (by omega), toNat_digitChar (b / 100 % 10) (by omega),
    toNat_digitChar (a / 10 % 10) (by omega), toNat_digitChar (b / 10 % 10) (by omega),
    toNat_digitChar (a % 10) (by omega), toNat_digitChar (b % 10) (by omega),
    List.nil_append]
  split_ifs <;> first | rfl | omega

theorem listLt_pad2_append {a b : ℕ} (ha : a < 100) (hb : b < 100)
    (s t : List Char) :
    listLt (pad2 a ++ s) (pad2 b ++ t) =
      if a < b then true else if b < a then false else listLt s t := by
  unfold pad2
  simp only [List.cons_append, listLt_cons,
    toNat_digitChar (a / 10 % 10) (by omega), toNat_digitChar (b / 10 % 10) (by omega),
    toNat_digitChar (a % 10) (by omega), toNat_digitChar (b % 10) (by omega),
    List.nil_append]
  split_ifs <;> first | rfl | omega

/-- Lexicographic order on civil date triples. -/
def civLexLt (a b : ℕ × ℕ × ℕ) : Prop :=
  a.1 < b.1 ∨ (a.1 = b.1 ∧ (a.2.1 < b.2.1 ∨ (a.2.1 = b.2.1 ∧ a.2.2 < b.2.2)))

instance (a b : ℕ × ℕ × ℕ) : Decidable (civLexLt a b) := by
  unfold civLexLt; infer_instance

/-- Comparing two `YYYY-MM-DD` renderings as Python compares strings is
comparing the date triples lexicographically. -/
theorem listLt_isoDate {y m d y' m' d' : ℕ} (hy : y < 10000) (hy' : y' < 10000)
    (hm : m < 100) (hm' : m' < 100) (hd : d < 100) (hd' : d' < 100) :
    listLt (isoDate y m d) (isoDate y' m' d') =
      decide (civLexLt (y, m, d) (y', m', d')) := by
  unfold isoDate
  rw [listLt_pad4_append hy hy']
  by_cases h1 : y < y'
  · simp [h1, civLexLt]
  · by_cases h2 : y' < y
    · simp [h1, h2, civLexLt]; omega
    · have hyy : y = y' := by omega
      subst hyy
      rw [if_neg h1, if_neg h2, listLt_cons_same, listLt_pad2_append hm hm']
      by_cases h3 : m < m'
      · simp [h3, civLexLt]
      · by_cases h4 : m' < m
        · simp [h3, h4, civLexLt]; omega
        · have hmm : m = m' := by omega
          subst hmm
          rw [if_neg h3, if_neg h4, listLt_cons_same,
            show pad2 d = pad2 d ++ [] from (List.append_nil _).symm,
            show pad2 d' = pad2 d' ++ [] from (List.append_nil _).symm,
            listLt_pad2_append hd hd']
          by_cases h5 : d < d'
          · simp [h5, civLexLt]
          · by_cases h6 : d' < d
            · simp [h5, h6, civLexLt]
            · have hdd : d = d' := by omega
              subst hdd
              rw [if_neg h5, if_neg h6]
              simp [civLexLt, listLt]

theorem daysBeforeMonthAux_add_le :
    ∀ L < 2, ∀ m < 13, ∀ m' < 13, 1 ≤ m → m < m' →
      daysBeforeMonthAux L m + daysInMonthAux L m ≤ daysBeforeMonthAux L m' := by
  decide

theorem leapsBefore_succ (n : ℕ) : leapsBefore (n + 1) = leapsBefore n + leapBit (n + 1) := by
  have h := leapsBefore_step (n + 1) (by omega)
  simpa using h

theorem leapsBefore_mono {a b : ℕ} (h : a ≤ b) : leapsBefore a ≤ leapsBefore b := by
  induction b, h using Nat.le_induction with
  | base => exact le_refl _
  | succ n hn ih => rw [leapsBefore_succ]; omega

/-- Lexicographic comparison of valid civil dates agrees with the ordinal. -/
theorem ordDate_lt_of_civLexLt {y m d y' m' d' : ℕ}
    (hv : dateValid y m d) (hv' : dateValid y' m' d')
    (hlex : civLexLt (y, m, d) (y', m', d')) :
    ordDate y m d < ordDate y' m' d' := by
  obtain ⟨h1, h2, h3, h4, h5, h6⟩ := hv
  obtain ⟨h1', h2', h3', h4', h5', h6'⟩ := hv'
  have hL := leapBit_lt_two y
  have hL' := leapBit_lt_two y'
  dsimp only [civLexLt] at hlex
  rcases hlex with hy | ⟨rfl, hrest⟩
  · -- year strictly increases
    have hdbm := daysBeforeMonthAux_le (leapBit y) hL m (by omega)
    have hdim := daysInMonthAux_le (leapBit y) hL m (by omega)
    have hmono : leapsBefore y ≤ leapsBefore (y' - 1) :=
      leapsBefore_mono (by omega)
    have hstep : leapsBefore y = leapsBefore (y - 1) + leapBit y :=
      leapsBefore_step y (by omega)
    have hdbm' : 0 ≤ daysBeforeMonthAux (leapBit y') m' := by omega
    unfold ordDate daysBeforeMonth daysInMonth at *
    omega
  · rcases hrest with hm | ⟨rfl, hd⟩
    · -- same year, month strictly increases
      have hadd := daysBeforeMonthAux_add_le (leapBit y) hL m (by omega) m' (by omega) h3 hm
      unfold ordDate daysBeforeMonth daysInMonth at *
      omega
    · -- same year and month, day strictly increases
      unfold ordDate at *
      omega

/-- For valid dates the lexicographic order is exactly the ordinal order. -/
theorem civLexLt_iff_ordDate_lt {y m d y' m' d' : ℕ}
    (hv : dateValid y m d) (hv' : dateValid y' m' d') :
    civLexLt (y, m, d) (y', m', d') ↔ ordDate y m d < ordDate y' m' d' := by
  constructor
  · exact ordDate_lt_of_civLexLt hv hv'
  · intro ho
    by_contra hc
    have : civLexLt (y', m', d') (y, m, d) ∨ (y = y' ∧ m = m' ∧ d = d') := by
      dsimp only [civLexLt] at hc ⊢
      by_cases e1 : y = y' <;> by_cases e2 : m = m' <;> by_cases e3 : d = d' <;> omega
    rcases this with hgt | ⟨rfl, rfl, rfl⟩
    · have := ordDate_lt_of_civLexLt hv' hv hgt
      omega
    · omega

/-! ### Filesystem trees and the retention sweep
(`cleanup_old_recordings`, src/utils/file_utils.py, lines 80-168; invoked by
`FileManager._cleanup_old_recordings`, src/core/file_manager.py, lines 82-87,
which passes `config["general"]["retention_days"]` straight through). -/

/-- A directory as the sweep sees it: its name, its subdirectories and its
plain files. -/
inductive FSDir where
  | mk (name : List Char) (subdirs : List FSDir) (files : List (List Char))

def FSDir.name : FSDir → List Char
  | .mk n _ _ => n

def FSDir.subdirs : FSDir → List FSDir
  | .mk _ s _ => s

def FSDir.files : FSDir → List (List Char)
  | .mk _ _ f => f

/-- `not os.listdir(path)`: the directory is empty. -/
def FSDir.isEmptyDir (d : FSDir) : Bool := d.subdirs.isEmpty && d.files.isEmpty

/-- A calendar date at midnight, as `datetime.datetime(int(y), int(m), int(d))`
constructs it. -/
def mkMidnight (y m d : ℕ) : DT := ⟨y, m, d, 0, 0, 0, 0⟩

/-- The nested-layout deletion test: `datetime(int(y), int(m), int(d))`
succeeds (an invalid date raises, is caught, and the directory is kept) and
the resulting midnight datetime is strictly before the cutoff. -/
def dayDeleteCond (cutoff : DT) (yv mv : ℕ) (dname : List Char) : Bool :=
  let dv := parseNatChars dname
  decide (dateValid yv mv dv) && decide ((mkMidnight yv mv dv).key < cutoff.key)

/-- Process one digit-named month directory: digit-named day directories whose
parsed date is valid and older than the cutoff are deleted recursively. -/
def processMonth (cutoff : DT) (yv mv : ℕ) (m : FSDir) : FSDir :=
  .mk m.name
    (m.subdirs.filter fun d => !(isDigits d.name && dayDeleteCond cutoff yv mv d.name))
    m.files

/-- Process one digit-named year directory: descend into digit-named month
directories, then remove any processed month directory left empty. -/
def processYear (cutoff : DT) (y : FSDir) : FSDir :=
  let yv := parseNatChars y.name
  .mk y.name
    ((y.subdirs.map fun m =>
        if isDigits m.name then processMonth cutoff yv (parseNatChars m.name) m else m).filter
      fun m => !(isDigits m.name && m.isEmptyDir))
    y.files

/-- The nested-layout (`YYYY/MM/DD`) pass over the base directory, including
the pruning of year directories left empty. -/
def nestedPass (cutoff : DT) (b : FSDir) : FSDir :=
  .mk b.name
    ((b.subdirs.map fun y =>
        if isDigits y.name then processYear cutoff y else y).filter
      fun y => !(isDigits y.name && y.isEmptyDir))
    b.files

/-- The legacy flat-layout filter: `len(d) == 10 and d[4] == '-' and d[7] == '-'`. -/
def isFlatName (n : List Char) : Bool :=
  n.length == 10 && n.get? 4 == some '-' && n.get? 7 == some '-'

/-- The flat-layout (`YYYY-MM-DD`) pass: delete flat-named directories whose
name compares (as a string) strictly below the cutoff's `YYYY-MM-DD`. -/
def flatPass (cutStr : List Char) (b : FSDir) : FSDir :=
  .mk b.name
    (b.subdirs.filter fun d => !(isFlatName d.name && listLt d.name cutStr))
    b.files

/-- `cleanup_old_recordings(base_dir, retention_days)` run at wall-clock time
`now`: compute `cutoff = now - timedelta(days=retention_days)`, run the nested
pass, then the flat pass.  Note the function has no guard for
`retention_days <= 0`. -/
def cleanup_old_recordings (b : FSDir) (now : DT) (retentionDays : ℤ) : FSDir :=
  let cutoff := now.subDays retentionDays
  flatPass (isoDate cutoff.year cutoff.month cutoff.day) (nestedPass cutoff b)

/-- The tree contains a nested chain `ys/ms/ds` of directories. -/
def hasNested (b : FSDir) (ys ms ds : List Char) : Prop :=
  ∃ y ∈ b.subdirs, y.name = ys ∧
    ∃ m ∈ y.subdirs, m.name = ms ∧ ∃ d ∈ m.subdirs, d.name = ds

/-- The tree contains a top-level directory named `n`. -/
def hasFlat (b : FSDir) (n : List Char) : Prop := ∃ d ∈ b.subdirs, d.name = n

instance (b : FSDir) (ys ms ds : List Char) : Decidable (hasNested b ys ms ds) := by
  unfold hasNested; infer_instance

instance (b : FSDir) (n : List Char) : Decidable (hasFlat b n) := by
  unfold hasFlat; infer_instance

theorem isDigits_not_flat {n : List Char} (h : isDigits n = true) :
    isFlatName n = false := by
  unfold isDigits at h
  unfold isFlatName
  simp only [Bool.and_eq_true, Bool.not_eq_true', List.all_eq_true] at h
  by_cases hlen : n.length = 10
  · obtain ⟨c, hc⟩ : ∃ c, n.get? 4 = some c := by
      rw [List.get?_eq_getElem?]
      exact ⟨_, List.getElem?_eq_getElem (by omega)⟩
    have hcmem : c ∈ n := by
      rw [List.get?_eq_getElem?] at hc
      exact List.getElem?_mem hc
    have hdig := h.2 c hcmem
    have hne : c ≠ '-' := by
      intro rfl'
      subst rfl'
      simp [isDigitChar] at hdig
    rw [List.get?_eq_getElem?] at hc
    simp [hc, hne]
  · simp [hlen]

/-- A digit-named nested chain survives the sweep iff it was present and its
day directory does not satisfy the deletion test. -/
theorem hasNested_cleanup (b : FSDir) (now : DT) (r : ℤ) {ys ms ds : List Char}
    (hy : isDigits ys = true) (hm : isDigits ms = true) (hd : isDigits ds = true) :
    hasNested (cleanup_old_recordings b now r) ys ms ds ↔
      hasNested b ys ms ds ∧
        dayDeleteCond (now.subDays r) (parseNatChars ys) (parseNatChars ms) ds = false := by
  unfold cleanup_old_recordings
  constructor
  · rintro ⟨y', hy'mem, hy'name, m', hm'mem, hm'name, d', hd'mem, hd'name⟩
    -- peel the flat pass
    simp only [flatPass, FSDir.subdirs, List.mem_filter] at hy'mem
    obtain ⟨hy'mem, -⟩ := hy'mem
    -- peel the nested pass
    simp only [nestedPass, FSDir.subdirs, List.mem_filter, List.mem_map] at hy'mem
    obtain ⟨⟨y0, hy0mem, hy0eq⟩, -⟩ := hy'mem
    by_cases hy0dig : isDigits y0.name = true
    · rw [if_pos hy0dig] at hy0eq
      subst hy0eq
      have hy0name : y0.name = ys := by
        simpa [processYear, FSDir.name] using hy'name
      simp only [processYear, FSDir.subdirs, List.mem_filter, List.mem_map] at hm'mem
      obtain ⟨⟨m0, hm0mem, hm0eq⟩, -⟩ := hm'mem
      by_cases hm0dig : isDigits m0.name = true
      · rw [if_pos hm0dig] at hm0eq
        subst hm0eq
        have hm0name : m0.name = ms := by
          simpa [processMonth, FSDir.name] using hm'name
        simp only [processMonth, FSDir.subdirs, List.mem_filter] at hd'mem
        obtain ⟨hd0mem, hd0keep⟩ := hd'mem
        subst hd'name
        rw [hy0name, hm0name] at hd0keep
        simp only [Bool.not_eq_true', Bool.and_eq_false_iff] at hd0keep
        rcases hd0keep with hcontra | hdel
        · rw [hd] at hcontra; exact absurd hcontra (by simp)
        · exact ⟨⟨y0, hy0mem, hy0name, m0, hm0mem, hm0name, d', hd0mem, rfl⟩, hdel⟩
      · rw [if_neg hm0dig] at hm0eq
        subst hm0eq
        rw [hm'name, hm] at hm0dig
        exact absurd rfl hm0dig
    · rw [if_neg hy0dig] at hy0eq
      subst hy0eq
      rw [hy'name, hy] at hy0dig
      exact absurd rfl hy0dig
  · rintro ⟨⟨y0, hy0mem, hy0name, m0, hm0mem, hm0name, d0, hd0mem, hd0name⟩, hkeep⟩
    have hy0dig : isDigits y0.name = true := by rw [hy0name]; exact hy
    have hm0dig : isDigits m0.name = true := by rw [hm0name]; exact hm
    have hd0dig : isDigits d0.name = true := by rw [hd0name]; exact hd
    -- the surviving day directory
    have hd0keep : (!(isDigits d0.name &&
        dayDeleteCond (now.subDays r) (parseNatChars y0.name) (parseNatChars m0.name)
          d0.name)) = true := by
      rw [hd0dig, hy0name, hm0name, hd0name, hkeep]; rfl
    have hd0mem' : d0 ∈ (processMonth (now.subDays r) (parseNatChars y0.name)
        (parseNatChars m0.name) m0).subdirs := by
      simp only [processMonth, FSDir.subdirs, List.mem_filter]
      exact ⟨hd0mem, by rw [hy0name, hm0name] at hd0keep ⊢; exact hd0keep⟩
    -- the surviving month directory
    set pm := processMonth (now.subDays r) (parseNatChars y0.name) (parseNatChars m0.name) m0
      with hpm
    have hpmname : pm.name = m0.name := rfl
    have hpmne : pm.isEmptyDir = false := by
      unfold FSDir.isEmptyDir
      have : ¬ pm.subdirs.isEmpty = true := by
        intro hempty
        rw [List.isEmpty_iff] at hempty
        rw [hempty] at hd0mem'
        exact absurd hd0mem' (List.not_mem_nil _)
      simp only [Bool.and_eq_false_iff]
      left; exact Bool.not_eq_true _ ▸ (by simpa using this)
    have hpmmem : pm ∈ (processYear (now.subDays r) y0).subdirs := by
      simp only [processYear, FSDir.subdirs, List.mem_filter, List.mem_map]
      refine ⟨⟨m0, hm0mem, by rw [if_pos hm0dig]⟩, ?_⟩
      rw [hpmname, hm0dig, hpmne]; rfl
    -- the surviving year directory
    set py := processYear (now.subDays r) y0 with hpy
    have hpyname : py.name = y0.name := rfl
    have hpyne : py.isEmptyDir = false := by
      unfold FSDir.isEmptyDir
      have : ¬ py.subdirs.isEmpty = true := by
        intro hempty
        rw [List.isEmpty_iff] at hempty
        rw [hempty] at hpmmem
        exact absurd hpmmem (List.not_mem_nil _)
      simp only [Bool.and_eq_false_iff]
      left; exact Bool.not_eq_true _ ▸ (by simpa using this)
    have hpymem : py ∈ (nestedPass (now.subDays r) b).subdirs := by
      simp only [nestedPass, FSDir.subdirs, List.mem_filter, List.mem_map]
      refine ⟨⟨y0, hy0mem, by rw [if_pos hy0dig]⟩, ?_⟩
      rw [hpyname, hy0dig, hpyne]; rfl
    have hpyflat : py ∈ (flatPass
        (isoDate (now.subDays r).year (now.subDays r).month (now.subDays r).day)
        (nestedPass (now.subDays r) b)).subdirs := by
      simp only [flatPass, FSDir.subdirs, List.mem_filter]
      refine ⟨hpymem, ?_⟩
      rw [hpyname]
      rw [isDigits_not_flat hy0dig]
      rfl
    exact ⟨py, hpyflat, by rw [hpyname, hy0name], pm, hpmmem, by rw [hpmname, hm0name],
      d0, hd0mem', hd0name⟩

/-- A non-digit-named top-level directory survives the sweep iff it was
present and does not satisfy the flat-layout deletion test. -/
theorem hasFlat_cleanup (b : FSDir) (now : DT) (r : ℤ) {n : List Char}
    (hnd : isDigits n = false) :
    hasFlat (cleanup_old_recordings b now r) n ↔
      hasFlat b n ∧
        (isFlatName n &&
          listLt n (isoDate (now.subDays r).year (now.subDays r).month
            (now.subDays r).day)) = false := by
  unfold cleanup_old_recordings
  constructor
  · rintro ⟨d', hd'mem, hd'name⟩
    simp only [flatPass, FSDir.subdirs, List.mem_filter] at hd'mem
    obtain ⟨hd'mem, hd'keep⟩ := hd'mem
    simp only [nestedPass, FSDir.subdirs, List.mem_filter, List.mem_map] at hd'mem
    obtain ⟨⟨d0, hd0mem, hd0eq⟩, -⟩ := hd'mem
    by_cases hd0dig : isDigits d0.name = true
    · rw [if_pos hd0dig] at hd0eq
      subst hd0eq
      have : d0.name = n := by simpa [processYear, FSDir.name] using hd'name
      rw [this, hnd] at hd0dig
      exact absurd hd0dig (by simp)
    · rw [if_neg hd0dig] at hd0eq
      subst hd0eq
      subst hd'name
      refine ⟨⟨d0, hd0mem, rfl⟩, ?_⟩
      simpa only [Bool.not_eq_true'] using hd'keep
  · rintro ⟨⟨d0, hd0mem, hd0name⟩, hkeep⟩
    have hd0dig : isDigits d0.name = false := by rw [hd0name]; exact hnd
    refine ⟨d0, ?_, hd0name⟩
    simp only [flatPass, FSDir.subdirs, List.mem_filter]
    constructor
    · simp only [nestedPass, FSDir.subdirs, List.mem_filter, List.mem_map]
      refine ⟨⟨d0, hd0mem, by rw [if_neg (by rw [hd0dig]; simp)]⟩, ?_⟩
      rw [hd0dig]; rfl
    · rw [hd0name, hkeep]; rfl

theorem tod_lt {t : DT} (hv : t.Valid) : t.tod < 86400000000 := by
  obtain ⟨-, hh, hm, hs, hu⟩ := hv
  unfold DT.tod
  omega

theorem key_mkMidnight (y m d : ℕ) :
    (mkMidnight y m d).key = ordDate y m d * 86400000000 := by
  simp [mkMidnight, DT.key, DT.tod]

theorem key_eq_ord_tod (t : DT) :
    t.key = ordDate t.year t.month t.day * 86400000000 + t.tod := rfl

theorem subDays_ninety (t : DT) : t.subDays (90 : ℤ) = t.subDaysNat 90 := by
  unfold DT.subDays
  rw [if_pos (by norm_num)]
  rfl

theorem isDigits_isoDate (y m d : ℕ) : isDigits (isoDate y m d) = false := by
  unfold isDigits isoDate
  simp only [List.all_append, List.all_cons]
  have : isDigitChar '-' = false := rfl
  rw [this]
  simp

theorem isFlatName_isoDate (y m d : ℕ) : isFlatName (isoDate y m d) = true := rfl

/-- Day-directory bound: a valid date's day is below 100. -/
theorem day_lt_100 {y m d : ℕ} (hv : dateValid y m d) : d < 100 := by
  obtain ⟨-, -, h3, h4, -, h6⟩ := hv
  have := daysInMonthAux_le (leapBit y) (leapBit_lt_two y) m (by omega)
  unfold daysInMonth at h6
  omega

/-- C2 (amended): running `cleanup_old_recordings` with `retention_days = 90`
at time `now` on a tree with date directories for `D-100`, `D-91`, `D-90` and
`D-1` (where `D` is `now`'s date): in the nested `YYYY/MM/DD` layout it
deletes `D-100` and `D-91`, deletes `D-90` as well unless the sweep runs at
exactly midnight, and keeps `D-1`; in the legacy flat `YYYY-MM-DD` layout it
deletes exactly `D-100` and `D-91`, keeping `D-90` and `D-1`. -/
theorem C2_retention_sweep_amended (b : FSDir) (now : DT) (hv : now.Valid)
    (hy2 : 2 ≤ now.year) :
    (¬ hasNested (cleanup_old_recordings b now 90)
        (pad4 (now.subDaysNat 100).year) (pad2 (now.subDaysNat 100).month)
        (pad2 (now.subDaysNat 100).day)) ∧
    (¬ hasNested (cleanup_old_recordings b now 90)
        (pad4 (now.subDaysNat 91).year) (pad2 (now.subDaysNat 91).month)
        (pad2 (now.subDaysNat 91).day)) ∧
    (hasNested (cleanup_old_recordings b now 90)
        (pad4 (now.subDaysNat 90).year) (pad2 (now.subDaysNat 90).month)
        (pad2 (now.subDaysNat 90).day) ↔
      hasNested b (pad4 (now.subDaysNat 90).year) (pad2 (now.subDaysNat 90).month)
        (pad2 (now.subDaysNat 90).day) ∧ now.tod = 0) ∧
    (hasNested (cleanup_old_recordings b now 90)
        (pad4 (now.subDaysNat 1).year) (pad2 (now.subDaysNat 1).month)
        (pad2 (now.subDaysNat 1).day) ↔
      hasNested b (pad4 (now.subDaysNat 1).year) (pad2 (now.subDaysNat 1).month)
        (pad2 (now.subDaysNat 1).day)) ∧
    (¬ hasFlat (cleanup_old_recordings b now 90)
        (isoDate (now.subDaysNat 100).year (now.subDaysNat 100).month
          (now.subDaysNat 100).day)) ∧
    (¬ hasFlat (cleanup_old_recordings b now 90)
        (isoDate (now.subDaysNat 91).year (now.subDaysNat 91).month
          (now.subDaysNat 91).day)) ∧
    (hasFlat (cleanup_old_recordings b now 90)
        (isoDate (now.subDaysNat 90).year (now.subDaysNat 90).month
          (now.subDaysNat 90).day) ↔
      hasFlat b (isoDate (now.subDaysNat 90).year (now.subDaysNat 90).month
        (now.subDaysNat 90).day)) ∧
    (hasFlat (cleanup_old_recordings b now 90)
        (isoDate (now.subDaysNat 1).year (now.subDaysNat 1).month
          (now.subDaysNat 1).day) ↔
      hasFlat b (isoDate (now.subDaysNat 1).year (now.subDaysNat 1).month
        (now.subDaysNat 1).day)) := by
  have hvd := hv.1
  have h365 := ordDate_ge_365 hvd hy2
  have htod := tod_lt hv
  have hsub := subDays_ninety now
  obtain ⟨v100, o100, th100, tm100, ts100, tu100⟩ :=
    DT.subDaysNat_spec now 100 hvd (by omega)
  obtain ⟨v91, o91, th91, tm91, ts91, tu91⟩ :=
    DT.subDaysNat_spec now 91 hvd (by omega)
  obtain ⟨v90, o90, th90, tm90, ts90, tu90⟩ :=
    DT.subDaysNat_spec now 90 hvd (by omega)
  obtain ⟨v1, o1, th1, tm1, ts1, tu1⟩ :=
    DT.subDaysNat_spec now 1 hvd (by omega)
  have htod90 : (now.subDaysNat 90).tod = now.tod := by
    unfold DT.tod; rw [th90, tm90, ts90, tu90]
  -- bounds needed for the digit renderings
  have by100 : (now.subDaysNat 100).year < 10000 := by have := v100.2.1; omega
  have bm100 : (now.subDaysNat 100).month < 100 := by have := v100.2.2.2.1; omega
  have bd100 := day_lt_100 v100
  have by91 : (now.subDaysNat 91).year < 10000 := by have := v91.2.1; omega
  have bm91 : (now.subDaysNat 91).month < 100 := by have := v91.2.2.2.1; omega
  have bd91 := day_lt_100 v91
  have by90 : (now.subDaysNat 90).year < 10000 := by have := v90.2.1; omega
  have bm90 : (now.subDaysNat 90).month < 100 := by have := v90.2.2.2.1; omega
  have bd90 := day_lt_100 v90
  have by1 : (now.subDaysNat 1).year < 10000 := by have := v1.2.1; omega
  have bm1 : (now.subDaysNat 1).month < 100 := by have := v1.2.2.2.1; omega
  have bd1 := day_lt_100 v1
  -- the nested-layout deletion conditions
  have hcut : (now.subDays 90).key = ordDate now.year now.month now.day * 86400000000
      - 90 * 86400000000 + now.tod := by
    rw [hsub, key_eq_ord_tod, o90, htod90]; ring
  have hc100 : dayDeleteCond (now.subDays 90)
      (parseNatChars (pad4 (now.subDaysNat 100).year))
      (parseNatChars (pad2 (now.subDaysNat 100).month))
      (pad2 (now.subDaysNat 100).day) = true := by
    simp only [dayDeleteCond, parseNatChars_pad4 by100, parseNatChars_pad2 bm100,
      parseNatChars_pad2 bd100]
    rw [decide_eq_true v100, Bool.true_and, decide_eq_true_eq, key_mkMidnight, hcut, o100]
    omega
  have hc91 : dayDeleteCond (now.subDays 90)
      (parseNatChars (pad4 (now.subDaysNat 91).year))
      (parseNatChars (pad2 (now.subDaysNat 91).month))
      (pad2 (now.subDaysNat 91).day) = true := by
    simp only [dayDeleteCond, parseNatChars_pad4 by91, parseNatChars_pad2 bm91,
      parseNatChars_pad2 bd91]
    rw [decide_eq_true v91, Bool.true_and, decide_eq_true_eq, key_mkMidnight, hcut, o91]
    omega
  have hc90 : dayDeleteCond (now.subDays 90)
      (parseNatChars (pad4 (now.subDaysNat 90).year))
      (parseNatChars (pad2 (now.subDaysNat 90).month))
      (pad2 (now.subDaysNat 90).day) = decide (0 < now.tod) := by
    simp only [dayDeleteCond, parseNatChars_pad4 by90, parseNatChars_pad2 bm90,
      parseNatChars_pad2 bd90]
    rw [decide_eq_true v90, Bool.true_and, key_mkMidnight, hcut, o90]
    by_cases h0 : 0 < now.tod
    · rw [decide_eq_true h0, decide_eq_true (by omega)]
    · rw [decide_eq_false h0, decide_eq_false (by omega)]
  have hc1 : dayDeleteCond (now.subDays 90)
      (parseNatChars (pad4 (now.subDaysNat 1).year))
      (parseNatChars (pad2 (now.subDaysNat 1).month))
      (pad2 (now.subDaysNat 1).day) = false := by
    simp only [dayDeleteCond, parseNatChars_pad4 by1, parseNatChars_pad2 bm1,
      parseNatChars_pad2 bd1]
    rw [decide_eq_true v1, Bool.true_and, key_mkMidnight, hcut, o1]
    exact decide_eq_false (by omega)
  -- the flat-layout comparison facts (against the cutoff's YYYY-MM-DD)
  have hfcut : isoDate (now.subDays 90).year (now.subDays 90).month (now.subDays 90).day =
      isoDate (now.subDaysNat 90).year (now.subDaysNat 90).month (now.subDaysNat 90).day := by
    rw [hsub]
  have hf100 : listLt
      (isoDate (now.subDaysNat 100).year (now.subDaysNat 100).month (now.subDaysNat 100).day)
      (isoDate (now.subDaysNat 90).year (now.subDaysNat 90).month (now.subDaysNat 90).day) =
      true := by
    rw [listLt_isoDate by100 by90 bm100 bm90 bd100 bd90]
    rw [decide_eq_true]
    rw [civLexLt_iff_ordDate_lt v100 v90, o100, o90]
    omega
  have hf91 : listLt
      (isoDate (now.subDaysNat 91).year (now.subDaysNat 91).month (now.subDaysNat 91).day)
      (isoDate (now.subDaysNat 90).year (now.subDaysNat 90).month (now.subDaysNat 90).day) =
      true := by
    rw [listLt_isoDate by91 by90 bm91 bm90 bd91 bd90]
    rw [decide_eq_true]
    rw [civLexLt_iff_ordDate_lt v91 v90, o91, o90]
    omega
  have hf90 : listLt
      (isoDate (now.subDaysNat 90).year (now.subDaysNat 90).month (now.subDaysNat 90).day)
      (isoDate (now.subDaysNat 90).year (now.subDaysNat 90).month (now.subDaysNat 90).day) =
      false := by
    rw [listLt_isoDate by90 by90 bm90 bm90 bd90 bd90]
    rw [decide_eq_false]
    rw [civLexLt_iff_ordDate_lt v90 v90]
    omega
  have hf1 : listLt
      (isoDate (now.subDaysNat 1).year (now.subDaysNat 1).month (now.subDaysNat 1).day)
      (isoDate (now.subDaysNat 90).year (now.subDaysNat 90).month (now.subDaysNat 90).day) =
      false := by
    rw [listLt_isoDate by1 by90 bm1 bm90 bd1 bd90]
    rw [decide_eq_false]
    rw [civLexLt_iff_ordDate_lt v1 v90, o1, o90]
    omega
  refine ⟨?_, ?_, ?_, ?_, ?_, ?_, ?_, ?_⟩
  · intro h
    rw [hasNested_cleanup b now 90 (isDigits_pad4 _) (isDigits_pad2 _) (isDigits_pad2 _)] at h
    rw [hc100] at h
    exact absurd h.2 (by simp)
  · intro h
    rw [hasNested_cleanup b now 90 (isDigits_pad4 _) (isDigits_pad2 _) (isDigits_pad2 _)] at h
    rw [hc91] at h
    exact absurd h.2 (by simp)
  · rw [hasNested_cleanup b now 90 (isDigits_pad4 _) (isDigits_pad2 _) (isDigits_pad2 _), hc90]
    simp only [decide_eq_false_iff_not, Nat.not_lt, Nat.le_zero]
  · rw [hasNested_cleanup b now 90 (isDigits_pad4 _) (isDigits_pad2 _) (isDigits_pad2 _), hc1]
    simp
  · intro h
    rw [hasFlat_cleanup b now 90 (isDigits_isoDate _ _ _)] at h
    rw [hfcut, isFlatName_isoDate, hf100] at h
    exact absurd h.2 (by simp)
  · intro h
    rw [hasFlat_cleanup b now 90 (isDigits_isoDate _ _ _)] at h
    rw [hfcut, isFlatName_isoDate, hf91] at h
    exact absurd h.2 (by simp)
  · rw [hasFlat_cleanup b now 90 (isDigits_isoDate _ _ _), hfcut, isFlatName_isoDate, hf90]
    simp
  · rw [hasFlat_cleanup b now 90 (isDigits_isoDate _ _ _), hfcut, isFlatName_isoDate, hf1]
    simp

/-! ### Concrete instances for the retention sweep -/

/-- A sample sweep time: 2024-06-15 12:30:45.123456. -/
def sampleNow : DT := ⟨2024, 6, 15, 12, 30, 45, 123456⟩

/-- A recordings tree holding, in both layouts, the date directories for
D-100 = 2024-03-07, D-91 = 2024-03-16, D-90 = 2024-03-17 and
D-1 = 2024-06-14 relative to `sampleNow`. -/
def sampleTree : FSDir :=
  .mk []
    [ .mk ['2','0','2','4']
        [ .mk ['0','3']
            [ .mk ['0','7'] [] [['a','.','w','a','v']],
              .mk ['1','6'] [] [['b','.','w','a','v']],
              .mk ['1','7'] [] [['c','.','w','a','v']] ] [],
          .mk ['0','6']
            [ .mk ['1','4'] [] [['d','.','w','a','v']] ] [] ] [],
      .mk ['2','0','2','4','-','0','3','-','0','7'] [] [['e','.','w','a','v']],
      .mk ['2','0','2','4','-','0','3','-','1','6'] [] [['f','.','w','a','v']],
      .mk ['2','0','2','4','-','0','3','-','1','7'] [] [['g','.','w','a','v']],
      .mk ['2','0','2','4','-','0','6','-','1','4'] [] [['h','.','w','a','v']] ]
    []

/-- C2 (counterexample to the claim as stated): on a nested-layout tree
containing the day directory dated D-90 (2024-03-17 for a sweep run at
2024-06-15 12:30:45.123456), `cleanup_old_recordings` with
`retention_days = 90` deletes that directory, although the claim says D-90 is
kept. -/
theorem C2_counterexample_nested_D90_deleted :
    hasNested sampleTree ['2','0','2','4'] ['0','3'] ['1','7'] ∧
      ¬ hasNested (cleanup_old_recordings sampleTree sampleNow 90)
          ['2','0','2','4'] ['0','3'] ['1','7'] := by
  decide

/-- Witness for C2: the amended theorem applied at the sample tree and time. -/
theorem C2_retention_sweep_amended_witness :
    DT.Valid sampleNow ∧ 2 ≤ sampleNow.year ∧
      ¬ hasNested (cleanup_old_recordings sampleTree sampleNow 90)
        (pad4 (sampleNow.subDaysNat 100).year) (pad2 (sampleNow.subDaysNat 100).month)
        (pad2 (sampleNow.subDaysNat 100).day) :=
  ⟨by decide, by decide,
    (C2_retention_sweep_amended sampleTree sampleNow (by decide) (by decide)).1⟩

/-- C1: `cleanup_old_recordings` has no guard for `retention_days ≤ 0`.  Run
with `retention_days = 0` at 2024-06-15 12:30:45.123456 the cutoff is the
current instant, so the sweep deletes the flat directory dated yesterday
(2024-06-14) and even the nested directory dated today (2024-06-15, whose
midnight datetime is before the cutoff) — contradicting the spec's
"retention_days ≤ 0 disables sweeping entirely". -/
theorem C1_retention_zero_still_deletes :
    hasFlat sampleTree ['2','0','2','4','-','0','6','-','1','4'] ∧
      ¬ hasFlat (cleanup_old_recordings sampleTree sampleNow 0)
          ['2','0','2','4','-','0','6','-','1','4'] ∧
      hasNested sampleTree ['2','0','2','4'] ['0','6'] ['1','4'] ∧
      ¬ hasNested (cleanup_old_recordings sampleTree sampleNow 0)
          ['2','0','2','4'] ['0','6'] ['1','4'] := by
  decide

/-! ### Segment rotation boundary and file naming
(`AudioRecorder._process_audio`, src/core/audio_recorder.py lines 859-944, and
`create_file_path`, src/utils/file_utils.py lines 13-60). -/

/-- The segment writer's rotation boundary (`_process_audio`): the block
duration is the literal `3` (`block_number = hour // 3`), not the configured
`recording_hours`; minutes and seconds are zeroed but the microsecond field is
preserved by `replace`. -/
def writerBlockEnd (t : DT) : DT :=
  let blockEndHour := (t.hour / 3 + 1) * 3
  if 24 ≤ blockEndHour then
    { t.addOneDay with hour := 0, minute := 0, second := 0 }
  else
    { t with hour := blockEndHour, minute := 0, second := 0 }

/-- The block end computed inside `create_file_path` from `block_start_time`
and `recording_hours` (which defaults to 3; `_process_audio` calls
`create_file_path` without passing it).  As in the source, `replace` zeroes
minutes and seconds but not microseconds. -/
def createFilePathEnd (blockStart : DT) (H : ℕ) : DT :=
  let blockEndHour := (blockStart.hour / H + 1) * H
  if 24 ≤ blockEndHour then
    { blockStart.addOneDay with hour := 0, minute := 0, second := 0 }
  else
    { blockStart with hour := blockEndHour, minute := 0, second := 0 }

/-- `strftime("%Y-%m-%d_%H-%M-%S")`. -/
def fmtDT (t : DT) : List Char :=
  pad4 t.year ++ '-' :: (pad2 t.month ++ '-' :: (pad2 t.day ++ '_' ::
    (pad2 t.hour ++ '-' :: (pad2 t.minute ++ '-' :: pad2 t.second))))

/-- The segment file name built by `create_file_path`:
`{start}_to_{end}.wav`, where `start` is the actual start time if given, the
block start otherwise, and `end` is the computed block end. -/
def create_file_name (blockStart : DT) (actual : Option DT) (H : ℕ) : List Char :=
  fmtDT (actual.getD blockStart) ++
    '_' :: 't' :: 'o' :: '_' :: (fmtDT (createFilePathEnd blockStart H) ++ ['.','w','a','v'])

/-- Numeric value of an ASCII digit. -/
def digitVal (c : Char) : ℕ := c.toNat - 48

/-- Parse a `%Y-%m-%d_%H-%M-%S` rendering back into a datetime (microseconds
are not encoded, so the parsed value has microsecond 0).  The repository
generates segment names but never parses them; this parser is the
specification's notion of reading the two timestamps back out of a name. -/
def parseDT (l : List Char) : Option DT :=
  match l with
  | [y3, y2, y1, y0, s1, mo1, mo0, s2, d1, d0, s3, h1, h0, s4, mi1, mi0, s5, se1, se0] =>
    if s1 = '-' ∧ s2 = '-' ∧ s3 = '_' ∧ s4 = '-' ∧ s5 = '-' ∧
        ([y3, y2, y1, y0, mo1, mo0, d1, d0, h1, h0, mi1, mi0, se1, se0].all
          isDigitChar) = true then
      some ⟨digitVal y3 * 1000 + digitVal y2 * 100 + digitVal y1 * 10 + digitVal y0,
            digitVal mo1 * 10 + digitVal mo0,
            digitVal d1 * 10 + digitVal d0,
            digitVal h1 * 10 + digitVal h0,
            digitVal mi1 * 10 + digitVal mi0,
            digitVal se1 * 10 + digitVal se0, 0⟩
    else none
  | _ => none

/-- Parse the start and end timestamps out of a segment file name: the first
19 characters and the 19 characters following the `_to_` separator. -/
def parseFileNameTimes (l : List Char) : Option (DT × DT) :=
  match parseDT (l.take 19), parseDT ((l.drop 23).take 19) with
  | some a, some b => some (a, b)
  | _, _ => none

theorem digitVal_digitChar : ∀ x < 10, digitVal (digitChar x) = x := by decide

theorem fmtDT_length (t : DT) : (fmtDT t).length = 19 := rfl

theorem parseDT_fmtDT {t : DT} (hy : t.year < 10000) (hm : t.month < 100)
    (hd : t.day < 100) (hh : t.hour < 100) (hmi : t.minute < 100)
    (hs : t.second < 100) :
    parseDT (fmtDT t) =
      some ⟨t.year, t.month, t.day, t.hour, t.minute, t.second, 0⟩ := by
  simp only [fmtDT, pad4, pad2, List.cons_append, List.nil_append]
  simp only [parseDT]
  rw [if_pos]
  · simp only [Option.some.injEq, DT.mk.injEq]
    refine ⟨?_, ?_, ?_, ?_, ?_, ?_, trivial⟩ <;>
      · rw [digitVal_digitChar _ (by omega), digitVal_digitChar _ (by omega)]
        try rw [digitVal_digitChar _ (by omega), digitVal_digitChar _ (by omega)]
        omega
  · refine ⟨trivial, trivial, trivial, trivial, trivial, ?_⟩
    simp only [List.all_cons, List.all_nil, Bool.and_eq_true]
    refine ⟨?_, ?_, ?_, ?_, ?_, ?_, ?_, ?_, ?_, ?_, ?_, ?_, ?_, ?_, trivial⟩ <;>
      exact isDigitChar_digitChar _ (by omega)

theorem take19_fmtDT_append (t : DT) (rest : List Char) :
    (fmtDT t ++ rest).take 19 = fmtDT t := by
  rw [← fmtDT_length t]
  exact List.take_left _ _

theorem drop19_fmtDT_append (t : DT) (rest : List Char) :
    (fmtDT t ++ rest).drop 19 = rest := by
  rw [← fmtDT_length t]
  exact List.drop_left _ _

theorem createFilePathEnd_spec {t : DT} (hv : t.Valid) (hy : t.year ≤ 9998)
    {H : ℕ} (_hH : 1 ≤ H) :
    (createFilePathEnd t H).Valid ∧
      (createFilePathEnd t H).microsecond = t.microsecond := by
  obtain ⟨hvd, hh, hm, hs, hu⟩ := hv
  by_cases hc : 24 ≤ (t.hour / H + 1) * H
  · simp only [createFilePathEnd, if_pos hc]
    obtain ⟨hnv, -⟩ := nextDay_valid_ord hvd hy
    exact ⟨⟨hnv, by show (0:ℕ) < 24; omega, by show (0:ℕ) < 60; omega,
      by show (0:ℕ) < 60; omega, hu⟩, rfl⟩
  · simp only [createFilePathEnd, if_neg hc]
    exact ⟨⟨hvd, by show (t.hour / H + 1) * H < 24; omega, by show (0:ℕ) < 60; omega,
      by show (0:ℕ) < 60; omega, hu⟩, by trivial⟩

/-- Parsing a generated segment name recovers the start and end timestamps
truncated to whole seconds (the `%Y-%m-%d_%H-%M-%S` rendering drops
microseconds). -/
theorem parseFileNameTimes_create_file_name {bs : DT} (hbs : bs.Valid)
    (hy : bs.year ≤ 9998) (act : Option DT) (hact : ∀ a, act = some a → a.Valid)
    {H : ℕ} (hH : 1 ≤ H) :
    parseFileNameTimes (create_file_name bs act H) =
      some (⟨(act.getD bs).year, (act.getD bs).month, (act.getD bs).day,
             (act.getD bs).hour, (act.getD bs).minute, (act.getD bs).second, 0⟩,
            ⟨(createFilePathEnd bs H).year, (createFilePathEnd bs H).month,
             (createFilePathEnd bs H).day, (createFilePathEnd bs H).hour,
             (createFilePathEnd bs H).minute, (createFilePathEnd bs H).second, 0⟩) := by
  have hstart : (act.getD bs).Valid := by
    cases hc : act with
    | none => simpa [hc] using hbs
    | some a => simpa [hc] using hact a hc
  obtain ⟨hev, -⟩ := createFilePathEnd_spec ⟨hbs.1, hbs.2.1, hbs.2.2.1, hbs.2.2.2.1,
    hbs.2.2.2.2⟩ hy hH
  obtain ⟨hsv1, hsh, hsm, hss, hsu⟩ := hstart
  obtain ⟨hev1, heh, hem, hes, heu⟩ := hev
  have hsdim := day_lt_100 hsv1
  have hedim := day_lt_100 hev1
  have hsy : (act.getD bs).year < 10000 := by have := hsv1.2.1; omega
  have hsmo : (act.getD bs).month < 100 := by have := hsv1.2.2.2.1; omega
  have hey : (createFilePathEnd bs H).year < 10000 := by have := hev1.2.1; omega
  have hemo : (createFilePathEnd bs H).month < 100 := by have := hev1.2.2.2.1; omega
  unfold parseFileNameTimes create_file_name
  rw [take19_fmtDT_append,
    show (23 : ℕ) = 19 + 4 from rfl, ← List.drop_drop, drop19_fmtDT_append,
    show ∀ l : List Char, ('_' :: 't' :: 'o' :: '_' :: l).drop 4 = l from fun _ => rfl,
    take19_fmtDT_append,
    parseDT_fmtDT (by omega) (by omega) (by omega) (by omega) (by omega) (by omega),
    parseDT_fmtDT (by omega) (by omega) (by omega) (by omega) (by omega) (by omega)]

/-- C3: the segment writer's rotation boundary does not follow the configured
block duration.  At 2024-06-15 00:30 with `recording_hours = 1` the boundary
required by the claim (end of the 1-hour block containing now) is 01:00, but
`_process_audio` closes the segment at 03:00 — the hour-division constant is
the literal 3 — and, because `_process_audio` calls `create_file_path`
without `recording_hours`, the end time encoded in the file path is likewise
the 3-hour block end. -/
theorem C3_writer_ignores_configured_hours :
    writerBlockEnd ⟨2024, 6, 15, 0, 30, 0, 0⟩ = ⟨2024, 6, 15, 3, 0, 0, 0⟩ ∧
      (calculate_block_times ⟨2024, 6, 15, 0, 30, 0, 0⟩ 1).2 = ⟨2024, 6, 15, 1, 0, 0, 0⟩ ∧
      writerBlockEnd ⟨2024, 6, 15, 0, 30, 0, 0⟩ ≠
        (calculate_block_times ⟨2024, 6, 15, 0, 30, 0, 0⟩ 1).2 ∧
      createFilePathEnd ⟨2024, 6, 15, 0, 30, 0, 0⟩ 3 = ⟨2024, 6, 15, 3, 0, 0, 0⟩ := by
  decide

/-- C9 (counterexample to the claim as stated): with a block start carrying a
nonzero microsecond field, the end timestamp parsed back from the generated
file name differs from the end boundary used to create the file (the
`%Y-%m-%d_%H-%M-%S` rendering drops microseconds, while `create_file_path`'s
`replace` keeps them). -/
theorem C9_counterexample_microseconds :
    createFilePathEnd ⟨2024, 6, 15, 2, 0, 0, 500000⟩ 3 = ⟨2024, 6, 15, 3, 0, 0, 500000⟩ ∧
      parseFileNameTimes (create_file_name ⟨2024, 6, 15, 2, 0, 0, 500000⟩ none 3) =
        some (⟨2024, 6, 15, 2, 0, 0, 0⟩, ⟨2024, 6, 15, 3, 0, 0, 0⟩) ∧
      parseFileNameTimes (create_file_name ⟨2024, 6, 15, 2, 0, 0, 500000⟩ none 3) ≠
        some (⟨2024, 6, 15, 2, 0, 0, 500000⟩,
          createFilePathEnd ⟨2024, 6, 15, 2, 0, 0, 500000⟩ 3) := by
  decide

/-- C9 (amended): segment file names round-trip exactly for whole-second
inputs: when the block start (and the actual start, if supplied) have
microsecond 0, parsing the two timestamps back out of the generated name
reproduces exactly the start time and end boundary used to create the file;
in general the parse reproduces them truncated to whole seconds. -/
theorem C9_roundtrip_amended {bs : DT} (hbs : bs.Valid) (hy : bs.year ≤ 9998)
    (act : Option DT) (hact : ∀ a, act = some a → a.Valid)
    {H : ℕ} (hH : 1 ≤ H) (hu0 : bs.microsecond = 0)
    (hau : ∀ a, act = some a → a.microsecond = 0) :
    parseFileNameTimes (create_file_name bs act H) =
      some (act.getD bs, createFilePathEnd bs H) := by
  rw [parseFileNameTimes_create_file_name hbs hy act hact hH]
  have hsu : (act.getD bs).microsecond = 0 := by
    cases hc : act with
    | none => simpa [hc] using hu0
    | some a => simpa [hc] using hau a hc
  have heu : (createFilePathEnd bs H).microsecond = 0 := by
    rw [(createFilePathEnd_spec hbs hy hH).2, hu0]
  have h1 : (⟨(act.getD bs).year, (act.getD bs).month, (act.getD bs).day,
      (act.getD bs).hour, (act.getD bs).minute, (act.getD bs).second, 0⟩ : DT) =
      act.getD bs := by
    ext <;> simp [hsu]
  have h2 : (⟨(createFilePathEnd bs H).year, (createFilePathEnd bs H).month,
      (createFilePathEnd bs H).day, (createFilePathEnd bs H).hour,
      (createFilePathEnd bs H).minute, (createFilePathEnd bs H).second, 0⟩ : DT) =
      createFilePathEnd bs H := by
    ext <;> simp [heu]
  rw [h1, h2]

/-- Witness for C9: the amended round-trip at a concrete block start with a
concrete mid-block actual start. -/
theorem C9_roundtrip_amended_witness :
    DT.Valid ⟨2024, 6, 15, 2, 0, 0, 0⟩ ∧
      parseFileNameTimes
          (create_file_name ⟨2024, 6, 15, 2, 0, 0, 0⟩ (some ⟨2024, 6, 15, 2, 5, 7, 0⟩) 3) =
        some ((some (⟨2024, 6, 15, 2, 5, 7, 0⟩ : DT)).getD ⟨2024, 6, 15, 2, 0, 0, 0⟩,
          createFilePathEnd ⟨2024, 6, 15, 2, 0, 0, 0⟩ 3) :=
  ⟨by decide,
    C9_roundtrip_amended (by decide) (by decide) (some ⟨2024, 6, 15, 2, 5, 7, 0⟩)
      (by intro a ha; cases ha; decide) (by norm_num) (by decide)
      (by intro a ha; cases ha; decide)⟩

/-! ### Mono downmix (`convert_to_mono`, src/utils/audio_utils.py lines
184-212, and the identical inline downmix in `AudioRecorder._record_audio`,
src/core/audio_recorder.py lines 813-824).

`np.mean(samples, axis=1, dtype=np.int16)` accumulates the per-frame sum in
int16 — wrapping on overflow — and the unsafe cast of the true-division
result back to int16 truncates toward zero.  For two channels the wrapped sum
halved always fits in int16 again. -/

/-- Wrap an integer into int16 range, as int16 addition does. -/
def wrap16 (x : ℤ) : ℤ := (x + 32768) % 65536 - 32768

/-- The 2-channel mono downmix: per interleaved L/R pair, the int16-wrapped
sum (numpy reduces the axis by sequential wrapped adds starting from 0)
divided by 2 truncating toward zero. -/
def convert_to_mono2 : List ℤ → List ℤ
  | l :: r :: rest => Int.tdiv (wrap16 (wrap16 (0 + l) + r)) 2 :: convert_to_mono2 rest
  | _ => []

/-- The integer average named by the spec (truncated toward zero; at the
counterexample input every rounding convention agrees). -/
def specIntAvg (a b : ℤ) : ℤ := Int.tdiv (a + b) 2

/-- Interleave a list of L/R pairs into a 2-channel PCM buffer. -/
def interleave2 : List (ℤ × ℤ) → List ℤ
  | [] => []
  | (l, r) :: ps => l :: r :: interleave2 ps

theorem wrap16_eq_self {x : ℤ} (h1 : -32768 ≤ x) (h2 : x ≤ 32767) :
    wrap16 x = x := by
  unfold wrap16
  omega

/-- C5 (counterexample to the claim as stated): averaging the pair
(20000, 20000) in int16 wraps the sum to -25536 and yields -12768, not the
integer average 20000. -/
theorem C5_counterexample_overflow :
    convert_to_mono2 [20000, 20000] = [-12768] ∧ specIntAvg 20000 20000 = 20000 ∧
      convert_to_mono2 [20000, 20000] ≠ [specIntAvg 20000 20000] := by
  decide

/-- C5 (amended): for every 2-channel interleaved buffer of int16 samples,
the i-th mono sample is the int16-wrapped sum of the i-th L/R pair divided by
two truncating toward zero; whenever that sum already fits in int16 this is
exactly the truncated integer average of the pair. -/
theorem C5_mono_downmix_amended (ps : List (ℤ × ℤ))
    (hin : ∀ p ∈ ps, -32768 ≤ p.1 ∧ p.1 ≤ 32767 ∧ -32768 ≤ p.2 ∧ p.2 ≤ 32767) :
    convert_to_mono2 (interleave2 ps) =
        ps.map (fun p => Int.tdiv (wrap16 (p.1 + p.2)) 2) ∧
      ∀ p ∈ ps, -32768 ≤ p.1 + p.2 → p.1 + p.2 ≤ 32767 →
        Int.tdiv (wrap16 (p.1 + p.2)) 2 = specIntAvg p.1 p.2 := by
  constructor
  · induction ps with
    | nil => rfl
    | cons p rest ih =>
      obtain ⟨hl1, hl2, hr1, hr2⟩ := hin p (by simp)
      obtain ⟨l, r⟩ := p
      simp only [interleave2, convert_to_mono2, List.map_cons]
      rw [zero_add, wrap16_eq_self hl1 hl2,
        ih fun q hq => hin q (by simp [hq])]
  · intro p hp hs1 hs2
    rw [wrap16_eq_self hs1 hs2]
    rfl

/-- Witness for C5: the amended downmix law at a concrete buffer. -/
theorem C5_mono_downmix_amended_witness :
    convert_to_mono2 (interleave2 [((100 : ℤ), (201 : ℤ)), (-3, 0), (32767, 32767)]) =
      [(150 : ℤ), -1, -1] :=
  by rw [(C5_mono_downmix_amended [((100 : ℤ), (201 : ℤ)), (-3, 0), (32767, 32767)]
      (by decide)).1]; decide

/-! ### `stop_recording` (src/core/audio_recorder.py lines 302-360) and
`_cleanup_lock` (lines 655-675). -/

/-- The recorder state that `stop_recording` touches. -/
structure RecorderState where
  recording : Bool
  paused : Bool
  monitorActive : Bool
  recordThread : Bool
  processThread : Bool
  currentWave : Bool
  currentFile : Option (List Char)
  audioActive : Bool
  lockPid : Option ℕ
  recordingStartTime : Option ℕ
  deriving Repr, DecidableEq

/-- `stop_recording`: when no recording is in progress it returns `False`
immediately, touching nothing; otherwise it clears the recording flag, stops
the monitor, joins and drops both worker threads, closes the wave file,
terminates PyAudio, removes the lock file if it holds our pid
(`_cleanup_lock`), clears the start time and returns `True`. -/
def stop_recording (s : RecorderState) (pid : ℕ) : Bool × RecorderState :=
  if !s.recording then (false, s)
  else
    (true,
      { s with recording := false, monitorActive := false,
               recordThread := false, processThread := false,
               currentWave := false, currentFile := none,
               audioActive := false, recordingStartTime := none,
               lockPid := if s.lockPid = some pid then none else s.lockPid })

/-- C6: `stop_recording` on a recorder that is not recording fails (returns
`False`) and performs no teardown at all: the state — threads, wave file,
PyAudio handle and in particular the lock file — is returned unchanged. -/
theorem C6_stop_when_stopped_noop (s : RecorderState) (pid : ℕ)
    (h : s.recording = false) :
    stop_recording s pid = (false, s) := by
  unfold stop_recording
  rw [h]
  rfl

/-- Witness for C6: a stopped recorder that still holds a (stale) lock entry
and an open wave handle is untouched. -/
theorem C6_stop_when_stopped_noop_witness :
    stop_recording ⟨false, false, false, false, false, true, some ['x'], true,
        some 41, some 7⟩ 41 =
      (false, ⟨false, false, false, false, false, true, some ['x'], true,
        some 41, some 7⟩) :=
  C6_stop_when_stopped_noop _ 41 rfl

/-! ### The instance lock (`LockManager.check_lock` / `create_lock`,
src/core/lock_manager.py lines 24-80). -/

/-- The lock file next to the configuration: absent, present but unparsable,
or holding a pid. -/
structure LockState where
  lockFile : Option (Option ℕ)
  deriving Repr, DecidableEq

/-- `check_lock`: reports whether another instance is recording.  A missing
file is free; an unreadable file is assumed stale and removed; a pid whose
process is alive is busy if the process is inaccessible or is a Python
process, and otherwise — including when no such process exists — the stale
file is removed and the lock is reported free. -/
def check_lock (fs : LockState) (pidExists isPythonName accessible : ℕ → Bool) :
    Bool × LockState :=
  match fs.lockFile with
  | none => (false, fs)
  | some none => (false, ⟨none⟩)
  | some (some pid) =>
    if pidExists pid then
      if accessible pid then
        if isPythonName pid then (true, fs) else (false, ⟨none⟩)
      else (true, fs)
    else (false, ⟨none⟩)

/-- `create_lock`: write our pid into the lock file. -/
def create_lock (_fs : LockState) (selfPid : ℕ) : Bool × LockState :=
  (true, ⟨some (some selfPid)⟩)

/-- C7: when the lock file names a pid with no live process, `check_lock`
reports free (`False`) and removes the stale lock file, and a following
`create_lock` succeeds and writes the current process id. -/
theorem C7_stale_lock_self_heals (fs : LockState)
    (pidExists isPythonName accessible : ℕ → Bool) (p selfPid : ℕ)
    (h1 : fs.lockFile = some (some p)) (h2 : pidExists p = false) :
    check_lock fs pidExists isPythonName accessible = (false, ⟨none⟩) ∧
      create_lock (check_lock fs pidExists isPythonName accessible).2 selfPid =
        (true, ⟨some (some selfPid)⟩) := by
  have hchk : check_lock fs pidExists isPythonName accessible = (false, ⟨none⟩) := by
    unfold check_lock
    rw [h1]
    simp [h2]
  exact ⟨hchk, by rw [hchk]; rfl⟩

/-- Witness for C7: a lock file naming dead pid 4242 is healed and reacquired
by pid 77. -/
theorem C7_stale_lock_self_heals_witness :
    (⟨some (some 4242)⟩ : LockState).lockFile = some (some 4242) ∧
      check_lock ⟨some (some 4242)⟩ (fun _ => false) (fun _ => true) (fun _ => true) =
        (false, ⟨none⟩) ∧
      create_lock (check_lock ⟨some (some 4242)⟩ (fun _ => false) (fun _ => true)
          (fun _ => true)).2 77 =
        (true, ⟨some (some 77)⟩) :=
  ⟨rfl,
    C7_stale_lock_self_heals ⟨some (some 4242)⟩ (fun _ => false) (fun _ => true)
      (fun _ => true) 4242 77 rfl rfl⟩

/-! ### The disk guard (`would_retention_fit`, src/core/file_manager.py lines
230-253; `AudioRecorder.would_retention_fit`, src/core/audio_recorder.py
lines 1199-1218, is identical).

Python computes in floats; at the values of the claims every quantity
(gibibyte counts, the ratio 2, percentages 100 and 200) is exactly
representable and every operation exact, so `ℚ` models the computation
faithfully there. -/

/-- The verdict dictionary returned by `would_retention_fit`. -/
structure RetentionFit where
  fits : Bool
  free_space : ℚ
  needed_space : ℚ
  percentage : ℚ
  deriving DecidableEq

/-- `would_retention_fit`: `needed = day_size * retention_days`;
`fits = free_space > needed_space`; the needed/free percentage (100 when no
free space is measured) is capped at 100. -/
def would_retention_fit (freeSpace daySize retentionDays : ℚ) : RetentionFit :=
  let neededSpace := daySize * retentionDays
  { fits := decide (neededSpace < freeSpace),
    free_space := freeSpace,
    needed_space := neededSpace,
    percentage := min (if 0 < freeSpace then neededSpace / freeSpace * 100 else 100) 100 }

/-- C8: with 10 GiB of measured free space and a 20 GiB retention projection,
the verdict is `fits = false` with the percentage capped at 100. -/
theorem C8_fits_capped (freeSpace daySize retentionDays : ℚ)
    (hfree : freeSpace = 10 * 2 ^ 30)
    (hneed : daySize * retentionDays = 20 * 2 ^ 30) :
    (would_retention_fit freeSpace daySize retentionDays).fits = false ∧
      (would_retention_fit freeSpace daySize retentionDays).percentage = 100 := by
  simp only [would_retention_fit]
  rw [hfree, hneed]
  constructor
  · simp only [decide_eq_false_iff_not]
    norm_num
  · rw [if_pos (by norm_num),
      show (20 * 2 ^ 30 : ℚ) / (10 * 2 ^ 30) * 100 = 200 by norm_num,
      min_eq_right (by norm_num : (100 : ℚ) ≤ 200)]

/-- Witness for C8: 10 GiB free, 1 GiB per day for 20 retention days. -/
theorem C8_fits_capped_witness :
    ((2 : ℚ) ^ 30 * 20 = 20 * 2 ^ 30) ∧
      (would_retention_fit (10 * 2 ^ 30) (2 ^ 30) 20).fits = false ∧
      (would_retention_fit (10 * 2 ^ 30) (2 ^ 30) 20).percentage = 100 :=
  ⟨by norm_num,
    (C8_fits_capped (10 * 2 ^ 30) (2 ^ 30) 20 rfl (by norm_num)).1,
    (C8_fits_capped (10 * 2 ^ 30) (2 ^ 30) 20 rfl (by norm_num)).2⟩

/-- C10: `would_retention_fit` never divides by zero: with zero measured free
space and any nonnegative day size and retention, the percentage falls back
to 100 (no division is attempted) and the verdict is `fits = false`. -/
theorem C10_zero_free_space_safe (daySize retentionDays : ℚ)
    (hday : 0 ≤ daySize) (hret : 0 ≤ retentionDays) :
    (would_retention_fit 0 daySize retentionDays).fits = false ∧
      (would_retention_fit 0 daySize retentionDays).percentage = 100 := by
  simp only [would_retention_fit]
  constructor
  · simp only [decide_eq_false_iff_not]
    exact not_lt.mpr (mul_nonneg hday hret)
  · rw [if_neg (lt_irrefl (0 : ℚ)), min_self]

/-- Witness for C10: a 90-day retention of 1 GiB per day against an empty
disk. -/
theorem C10_zero_free_space_safe_witness :
    (0 : ℚ) ≤ 2 ^ 30 ∧ (0 : ℚ) ≤ 90 ∧
      (would_retention_fit 0 (2 ^ 30) 90).fits = false ∧
      (would_retention_fit 0 (2 ^ 30) 90).percentage = 100 :=
  ⟨by norm_num, by norm_num,
    (C10_zero_free_space_safe (2 ^ 30) 90 (by norm_num) (by norm_num)).1,
    (C10_zero_free_space_safe (2 ^ 30) 90 (by norm_num) (by norm_num)).2⟩

/-- Witness for C4: the block bracketing a mid-afternoon instant with the
default 3-hour blocks. -/
theorem C4_calculate_block_times_correct_witness :
    DT.Valid ⟨2024, 6, 15, 14, 37, 22, 5⟩ ∧
      (calculate_block_times ⟨2024, 6, 15, 14, 37, 22, 5⟩ 3).2.key -
          (calculate_block_times ⟨2024, 6, 15, 14, 37, 22, 5⟩ 3).1.key =
        3 * 3600000000 :=
  ⟨by decide,
    (C4_calculate_block_times_correct 3 (by norm_num) ⟨2024, 6, 15, 14, 37, 22, 5⟩
      (by decide) (by norm_num)).2.2.1⟩

end Recorder
